import Mathlib

/-!
Verification development for the AI-Exam-Ledger grading pipeline
(`backend/ai-module/revaluation.py` and `backend/ai-module/ocr_extractor.py`).

Text is modelled as `List Char` with ASCII semantics for the Python string
operations used by the code (`lower`, `strip`, `find`, slicing, `split`,
the regex character classes of `clean_ocr_text`).
-/

set_option maxRecDepth 10000

/-- ASCII model of Python `str.lower` applied to one character. -/
def pyLower (c : Char) : Char :=
  if 65 ≤ c.toNat ∧ c.toNat ≤ 90 then Char.ofNat (c.toNat + 32) else c

/-- Python `str.lower` over a whole string. -/
def pyLowerStr (l : List Char) : List Char := l.map pyLower

/-- ASCII model of Python whitespace (the class stripped by `str.strip` and
split on by `str.split`). -/
def isPySpace (c : Char) : Bool :=
  c = ' ' ∨ c = '\t' ∨ c = '\n' ∨ c = '\r' ∨ c = '\x0b' ∨ c = '\x0c'

/-- Python `str.strip()`: remove whitespace from both ends. -/
def pyStrip (l : List Char) : List Char :=
  ((l.dropWhile isPySpace).reverse.dropWhile isPySpace).reverse

/-- Python `str.find(needle)`: index of the leftmost occurrence of `needle`
as a contiguous substring, `none` when absent (Python returns `-1`). -/
def findSub (needle : List Char) : List Char → Option Nat
  | [] => if needle = [] then some 0 else none
  | a :: t =>
    if needle.isPrefixOf (a :: t) then some 0
    else (findSub needle t).map (· + 1)

/-- Python substring containment `needle in hay`. -/
def containsSub (needle hay : List Char) : Bool :=
  (findSub needle hay).isSome

/-- Python slice `l[s:e]` for non-negative bounds (clamped, empty when `e ≤ s`). -/
def pySlice (l : List Char) (s e : Nat) : List Char :=
  (l.drop s).take (e - s)

/-- Number of maximal non-whitespace runs: `len(l.split())` in Python.
The Boolean argument records whether the previous character was inside a word. -/
def countWords : List Char → Bool → Nat
  | [], _ => 0
  | c :: t, inWord =>
    if isPySpace c then countWords t false
    else (if inWord then 0 else 1) + countWords t true

/-- Python `len(l.split())`. -/
def pyWordCount (l : List Char) : Nat := countWords l false

/-- First-match association-list lookup; Python dict access on a
duplicate-free key list agrees with it. -/
def lookupA {β : Type} (l : List (List Char × β)) (k : List Char) : Option β :=
  match l with
  | [] => none
  | (a, b) :: t => if a = k then some b else lookupA t k

/-- ASCII model of the regex class `\w`: alphanumeric or underscore. -/
def isWordChar (c : Char) : Bool :=
  (97 ≤ c.toNat ∧ c.toNat ≤ 122) ∨ (65 ≤ c.toNat ∧ c.toNat ≤ 90) ∨
    (48 ≤ c.toNat ∧ c.toNat ≤ 57) ∨ c = '_'

/-- Characters kept by the noise filter of `clean_ocr_text`
(`re.sub(r"[^\w\s\.\)\(:\-]", "", text)`). -/
def keepChar (c : Char) : Bool :=
  isWordChar c ∨ isPySpace c ∨ c = '.' ∨ c = ')' ∨ c = '(' ∨ c = ':' ∨ c = '-'

/-- Collapse maximal runs of the character `c` to a single `c`: the effect of
`re.sub(r"\n+", "\n", ·)` for `c = '\n'` and of `re.sub(r"[ ]{2,}", " ", ·)`
for `c = ' '` (a run of length `k ≥ 1` becomes one occurrence). -/
def collapseRuns (c : Char) : List Char → List Char
  | [] => []
  | [a] => [a]
  | a :: b :: t =>
    if a = c ∧ b = c then collapseRuns c (b :: t)
    else a :: collapseRuns c (b :: t)

/-- The Text Normalizer `clean_ocr_text` of `ocr_extractor.py`:
lower-case, collapse newline runs, collapse space runs, drop noise
characters, strip. -/
def clean_ocr_text (text : List Char) : List Char :=
  pyStrip (((collapseRuns ' ' (collapseRuns '\n' (pyLowerStr text)))).filter keepChar)

/-- Python `k.replace('q', '')`: delete every occurrence of the character. -/
def dropQ (l : List Char) : List Char := l.filter (fun c => ¬ c = 'q')

/-- The label variants tried for one rubric key, in the fixed priority order
of `extract_by_rubric_keys` (line 129 of `revaluation.py`). -/
def candidatesFor (key : List Char) : List (List Char) :=
  let k := pyLowerStr key
  [k, k ++ [':'], k ++ ['.'], k ++ [')'], k ++ ['-'],
   dropQ k ++ ['.'], dropQ k ++ [')'], dropQ k ++ [':']]

/-- First candidate found anywhere in the lower-cased text, with its position
(the `for cand in candidates` loop with `break`). -/
def findFirstCand (low : List Char) : List (List Char) → Option (Nat × List Char)
  | [] => none
  | c :: cs =>
    match findSub c low with
    | some i => some (i, c)
    | none => findFirstCand low cs

/-- One anchor per rubric key that has any matching label variant. -/
def collectPositions (low : List Char) (keys : List (List Char)) :
    List (Nat × List Char × List Char) :=
  keys.filterMap (fun k =>
    (findFirstCand low (candidatesFor k)).map (fun p => (p.1, p.2, k)))

/-- Stable insertion used to model Python `list.sort(key=...)`: the new
element goes after every element whose position is not larger. -/
def insertStable (p : Nat × List Char × List Char) :
    List (Nat × List Char × List Char) → List (Nat × List Char × List Char)
  | [] => [p]
  | q :: t => if q.1 ≤ p.1 then q :: insertStable p t else p :: q :: t

/-- Stable ascending sort by anchor position (`positions.sort(key=lambda x: x[0])`). -/
def sortStable (l : List (Nat × List Char × List Char)) :
    List (Nat × List Char × List Char) :=
  l.foldl (fun acc p => insertStable p acc) []

/-- The Question Segmenter pass one, `extract_by_rubric_keys` of
`revaluation.py` (lines 119-147): anchor each key at the first occurrence of
its first found label variant, sort anchors by position, and slice each
snippet from just after the label up to the next anchor (or end of text),
stripped. -/
def extract_by_rubric_keys (text : List Char) (rubric_keys : List (List Char)) :
    List (List Char × List Char) :=
  let low := pyLowerStr text
  let ps := sortStable (collectPositions low rubric_keys)
  ps.enum.map (fun ip =>
    let start := ip.2.1 + ip.2.2.1.length
    let en := match ps.get? (ip.1 + 1) with
      | some q => q.1
      | none => low.length
    (ip.2.2.2, pyStrip (pySlice text start en)))

/-- The pass-one value stored in `question_answers` for one rubric key
(lines 157-162): the extracted snippet when present and non-whitespace,
otherwise the empty string. -/
def pass1Val (extracted : List (List Char × List Char)) (k : List Char) : List Char :=
  match lookupA extracted k with
  | some v => if ¬ pyStrip v = [] then v else []
  | none => []

/-- The equal-size chunk assigned to the key at index `idx` by the fallback
(lines 169-177): `chunk_size = max(1, len(text) // n)`, the last chunk
absorbs the remainder, and the slice is stripped. -/
def chunkAt (t : List Char) (n idx : Nat) : List Char :=
  let cs := max 1 (t.length / n)
  pyStrip (pySlice t (idx * cs) (if idx < n - 1 then (idx + 1) * cs else t.length))

/-- The fallback loop (lines 173-177) over `enumerate(rubric_keys)`: a key
whose current value is whitespace-only is overwritten with its chunk. The
dict `question_answers` is modelled as a value function updated in place. -/
def fallbackFold (t : List Char) (keys : List (List Char))
    (m0 : List Char → List Char) : List Char → List Char :=
  keys.enum.foldl (fun m p =>
    if pyStrip (m p.2) = [] then
      (fun x => if x = p.2 then chunkAt t keys.length p.1 else m x)
    else m) m0

/-- The value `question_answers[k]` at the end of the rubric-keys branch
(lines 153-179): pass one, then the chunk fallback when some key is still
empty and the text has non-whitespace content. -/
def questionAnswersF (t : List Char) (keys : List (List Char)) :
    List Char → List Char :=
  let m0 := fun k => pass1Val (extract_by_rubric_keys t keys) k
  if ¬ (keys.filter (fun k => pyStrip (m0 k) = [])) = [] ∧ ¬ pyStrip t = [] then
    fallbackFold t keys m0
  else m0

/-- The dict `question_answers` in iteration order: rubric keys in rubric
order, each paired with its final value. -/
def question_answers (t : List Char) (keys : List (List Char)) :
    List (List Char × List Char) :=
  keys.map (fun k => (k, questionAnswersF t keys k))

/-- A grading rule as a JSON document: every field optional, read with the
defaults used by the scoring loop (`rule.get("definition_marks", 0)` etc.). -/
structure RuleDoc where
  max_marks : Option Int
  definition_marks : Option Int
  keyword_marks : Option Int
  explanation_marks : Option Int
  keywords : Option (List (List Char))
deriving DecidableEq

/-- The default rubric template of lines 201-207. -/
def default_rule : RuleDoc :=
  { max_marks := some 10, definition_marks := some 3, keyword_marks := some 4,
    explanation_marks := some 3, keywords := some [] }

/-- The per-question mark breakdown. -/
structure Breakdown where
  definition : Int
  keywords : Int
  explanation : Int
deriving DecidableEq

/-- One entry of the output array (`{question, suggested_marks, max_marks, breakdown}`). -/
structure QResult where
  question : List Char
  suggested_marks : Int
  max_marks : Int
  breakdown : Breakdown
deriving DecidableEq

/-- One iteration of the scoring loop (lines 209-245) on a question id, its
resolved rule and its answer text. -/
def scoreOne (qid : List Char) (rule : RuleDoc) (answer_text : List Char) : QResult :=
  let defB : Int := if 10 < (pyStrip answer_text).length then rule.definition_marks.getD 0 else 0
  let keyword_count : Nat :=
    ((rule.keywords.getD []).filter
      (fun kw => containsSub (pyLowerStr kw) (pyLowerStr answer_text))).length
  let kwB : Int := min ((keyword_count : Int) * 2) (rule.keyword_marks.getD 0)
  let expB : Int := if 15 < pyWordCount answer_text then rule.explanation_marks.getD 0 else 0
  { question := qid, suggested_marks := defB + kwB + expB,
    max_marks := rule.max_marks.getD 10,
    breakdown := { definition := defB, keywords := kwB, explanation := expB } }

/-- The whole scoring loop: one result per `question_answers` entry in
iteration order, with `rule = rubric.get(qid, default_rule)`. -/
def scoreAll (rubric : List (List Char × RuleDoc))
    (qa : List (List Char × List Char)) : List QResult :=
  qa.map (fun p => scoreOne p.1 ((lookupA rubric p.1).getD default_rule) p.2)

/-- The rubric-keys branch of the pipeline end to end (lines 150-249):
segmentation of the text by the rubric keys followed by the scoring loop. -/
def pipelineRun (rubric : List (List Char × RuleDoc)) (t : List Char) : List QResult :=
  scoreAll rubric (question_answers t (rubric.map (fun p => p.1)))

/-- What arrived on stdin for the rubric (lines 85-95): nothing or blank,
a read failure, text that does not parse as JSON, JSON that is not an
object, or a parsed rubric object (possibly empty). -/
inductive StdinRubric where
  | blank : StdinRubric
  | readFailure : StdinRubric
  | invalidJson : StdinRubric
  | nonObject : StdinRubric
  | parsed : List (List Char × RuleDoc) → StdinRubric
deriving DecidableEq

/-- Rubric resolution (lines 48 and 84-103): a parsed stdin object always
wins; otherwise, for blank stdin with a truthy subject code, a truthy
(non-`None`, non-empty) API result wins; in every other case the static
rubric loaded at startup stays in place. -/
def resolveRubric (st : StdinRubric) (subject_code : Option (List Char))
    (api : Option (List (List Char × RuleDoc)))
    (static_rubric : List (List Char × RuleDoc)) : List (List Char × RuleDoc) :=
  match st with
  | StdinRubric.parsed r => r
  | StdinRubric.invalidJson => static_rubric
  | StdinRubric.nonObject => static_rubric
  | StdinRubric.readFailure => static_rubric
  | StdinRubric.blank =>
    match subject_code with
    | some sc =>
      if ¬ sc = [] then
        match api with
        | some a => if ¬ a = [] then a else static_rubric
        | none => static_rubric
      else static_rubric
    | none => static_rubric

/-- The structured error document printed on OCR failure. -/
structure ErrorDoc where
  errorField : List Char
  reason : List Char
deriving DecidableEq

/-- Outcome of the OCR fallback block: either the pipeline proceeds with a
text, or the process prints an error document and exits with the given code. -/
inductive OcrStep where
  | proceed : List Char → OcrStep
  | errorExit : ErrorDoc → Nat → OcrStep
deriving DecidableEq

/-- The OCR fallback block (lines 106-114): when the primary text is empty
and a truthy pdf path was supplied, the OCR collaborator runs; its result is
lower-cased on success, while an exception prints `{error, reason}` and calls
`sys.exit(0)`. Otherwise the primary text is kept. -/
def truthyStr (o : Option (List Char)) : Bool :=
  match o with
  | some p => ¬ p = []
  | none => false

def ocrFallback (full_text : List Char) (pdf_path : Option (List Char))
    (ocr : Except (List Char) (List Char)) : OcrStep :=
  if full_text = [] ∧ truthyStr pdf_path then
    match ocr with
    | Except.ok t => OcrStep.proceed (pyLowerStr t)
    | Except.error r => OcrStep.errorExit { errorField := "OCR failed".toList, reason := r } 0
  else OcrStep.proceed full_text

/-- Modelled from the spec: the keyword dimension as the spec words it,
counting distinct rubric keywords present (each keyword at most once even
when the keyword list repeats it), for refinement comparison with the
keyword count of `scoreOne`. -/
def specKeywordScore (rule : RuleDoc) (answer_text : List Char) : Int :=
  min (((((rule.keywords.getD []).dedup).filter
    (fun kw => containsSub (pyLowerStr kw) (pyLowerStr answer_text))).length : Int) * 2)
    (rule.keyword_marks.getD 0)

/-- Fill the optional fields of a rule with the defaults the scoring loop
reads (`0` for the three mark dimensions, `10` for `max_marks`, `[]` for
`keywords`). -/
def fillDefaults (r : RuleDoc) : RuleDoc :=
  { max_marks := some (r.max_marks.getD 10),
    definition_marks := some (r.definition_marks.getD 0),
    keyword_marks := some (r.keyword_marks.getD 0),
    explanation_marks := some (r.explanation_marks.getD 0),
    keywords := some (r.keywords.getD []) }

/-- Claim C5 (code_bug evidence): when the primary text is empty, a pdf path
is supplied and the OCR collaborator raises, the program emits the structured
document with error "OCR failed" and the reason, but terminates via
`sys.exit(0)` — exit status zero, not the non-zero failure status the claim
requires. -/
theorem c5_error_doc_but_exit_zero :
    ocrFallback [] (some ("a.pdf").toList) (Except.error ("boom").toList) =
      OcrStep.errorExit { errorField := ("OCR failed").toList, reason := ("boom").toList } 0 := by
  decide

/-- Claim C6: an explicitly supplied empty rubric object is honored; whatever
the subject code, the API fetch result and the static rubric are, resolution
yields the empty mapping. -/
theorem c6_explicit_empty_rubric_honored (sc : Option (List Char))
    (api : Option (List (List Char × RuleDoc)))
    (static_rubric : List (List Char × RuleDoc)) :
    resolveRubric (StdinRubric.parsed []) sc api static_rubric = [] := rfl

/-- Claim C10: the scorer reads every rule field through a default
(`definition_marks`, `keyword_marks`, `explanation_marks` → 0, `keywords` →
`[]`, `max_marks` → 10), so scoring a rule with missing fields equals scoring
the default-filled rule, and a Result entry is always produced with the
defaulted `max_marks` and the given question id. -/
theorem c10_missing_fields_defaulted (qid : List Char) (r : RuleDoc) (ans : List Char) :
    scoreOne qid r ans = scoreOne qid (fillDefaults r) ans ∧
      (scoreOne qid r ans).max_marks = r.max_marks.getD 10 ∧
      (scoreOne qid r ans).question = qid := by
  refine ⟨?_, rfl, rfl⟩
  simp [scoreOne, fillDefaults]

/-- Claim C2 (counterexample): the scoring loop counts keyword-list entries,
not distinct keywords. On the rule with keyword list `["a", "a"]` and
`keyword_marks = 4`, the answer "a" scores `min(2*2, 4) = 4` in the keyword
dimension, while the claimed distinct-keyword formula gives `min(2*1, 4) = 2`. -/
theorem c2_counterexample :
    (scoreOne ("Q1").toList
      { max_marks := some 10, definition_marks := some 0, keyword_marks := some 4,
        explanation_marks := some 0, keywords := some [("a").toList, ("a").toList] }
      ("a").toList).breakdown.keywords = 4 ∧
    specKeywordScore
      { max_marks := some 10, definition_marks := some 0, keyword_marks := some 4,
        explanation_marks := some 0, keywords := some [("a").toList, ("a").toList] }
      ("a").toList = 2 ∧
    ¬ (scoreOne ("Q1").toList
      { max_marks := some 10, definition_marks := some 0, keyword_marks := some 4,
        explanation_marks := some 0, keywords := some [("a").toList, ("a").toList] }
      ("a").toList).breakdown.keywords =
      specKeywordScore
        { max_marks := some 10, definition_marks := some 0, keyword_marks := some 4,
          explanation_marks := some 0, keywords := some [("a").toList, ("a").toList] }
        ("a").toList := by
  decide

/-- Claim C2 (amended): the keyword dimension counts keyword-list entries
present as case-insensitive substrings, which equals the claimed distinct
count whenever the keyword list has no duplicate entries; definition and
explanation dimensions and the sum are as claimed; and the two concrete
expectations (the mitosis rule on the given answer, and on the empty answer)
hold as stated. -/
theorem c2_amended :
    (∀ (qid : List Char) (rule : RuleDoc) (ans : List Char),
      (rule.keywords.getD []).Nodup →
        (scoreOne qid rule ans).breakdown.keywords = specKeywordScore rule ans) ∧
    (∀ (qid : List Char) (rule : RuleDoc) (ans : List Char),
      (scoreOne qid rule ans).breakdown.definition =
        (if 10 < (pyStrip ans).length then rule.definition_marks.getD 0 else 0) ∧
      (scoreOne qid rule ans).breakdown.explanation =
        (if 15 < pyWordCount ans then rule.explanation_marks.getD 0 else 0) ∧
      (scoreOne qid rule ans).suggested_marks =
        (scoreOne qid rule ans).breakdown.definition +
          (scoreOne qid rule ans).breakdown.keywords +
          (scoreOne qid rule ans).breakdown.explanation) ∧
    scoreOne ("Q1").toList
      { max_marks := some 10, definition_marks := some 3, keyword_marks := some 4,
        explanation_marks := some 3, keywords := some [("mitosis").toList] }
      ("mitosis mitosis mitosis is cell division and this sentence has more than fifteen words to qualify for explanation marks").toList =
      { question := ("Q1").toList, suggested_marks := 8, max_marks := 10,
        breakdown := { definition := 3, keywords := 2, explanation := 3 } } ∧
    scoreOne ("Q1").toList
      { max_marks := some 10, definition_marks := some 3, keyword_marks := some 4,
        explanation_marks := some 3, keywords := some [("mitosis").toList] }
      [] =
      { question := ("Q1").toList, suggested_marks := 0, max_marks := 10,
        breakdown := { definition := 0, keywords := 0, explanation := 0 } } := by
  refine ⟨?_, ?_, by decide, by decide⟩
  · intro qid rule ans h
    simp [scoreOne, specKeywordScore, List.Nodup.dedup h]
  · intro qid rule ans
    exact ⟨rfl, rfl, rfl⟩

/-- Witness for `c2_amended`: its hypothesis discharged on the mitosis rule,
whose one-entry keyword list has no duplicates. -/
theorem c2_witness :
    (scoreOne ("Q1").toList
      { max_marks := some 10, definition_marks := some 3, keyword_marks := some 4,
        explanation_marks := some 3, keywords := some [("mitosis").toList] }
      ("mitosis").toList).breakdown.keywords =
      specKeywordScore
        { max_marks := some 10, definition_marks := some 3, keyword_marks := some 4,
          explanation_marks := some 3, keywords := some [("mitosis").toList] }
        ("mitosis").toList :=
  c2_amended.1 _ _ _ (by decide)

/-- Claim C3 (counterexample): on the text "Q1: alpha beta gamma. Q2: delta
epsilon" with keys Q1 and Q2, the bare label variant "q1" matches before
"q1:", so the snippet for Q1 is ": alpha beta gamma." and not the claimed
"alpha beta gamma.", nor does any whitespace trimming make them equal. -/
theorem c3_counterexample :
    lookupA (extract_by_rubric_keys
        ("Q1: alpha beta gamma. Q2: delta epsilon").toList
        [("Q1").toList, ("Q2").toList]) (("Q1").toList) =
      some ((": alpha beta gamma.").toList) ∧
    ¬ (": alpha beta gamma.").toList = ("alpha beta gamma.").toList ∧
    ¬ pyStrip ((": alpha beta gamma.").toList) = ("alpha beta gamma.").toList := by
  decide

/-- Claim C3 (amended): on that text the segmenter yields exactly
`{"Q1": ": alpha beta gamma.", "Q2": ": delta epsilon"}` — the bare key is
the highest-priority label variant, so the separator following the label is
retained at the head of each snippet. -/
theorem c3_amended :
    extract_by_rubric_keys
        ("Q1: alpha beta gamma. Q2: delta epsilon").toList
        [("Q1").toList, ("Q2").toList] =
      [(("Q1").toList, (": alpha beta gamma.").toList),
       (("Q2").toList, (": delta epsilon").toList)] := by
  decide

/-- Claim C7: for any rule whose four defaulted mark fields are non-negative
with the three dimension marks summing to at most `max_marks`, the suggested
marks of any answer lie between 0 and `max_marks` (no clamping is performed;
the bound comes from the configuration). -/
theorem c7_suggested_marks_bounds (qid : List Char) (rule : RuleDoc) (ans : List Char)
    (h1 : 0 ≤ rule.definition_marks.getD 0) (h2 : 0 ≤ rule.keyword_marks.getD 0)
    (h3 : 0 ≤ rule.explanation_marks.getD 0) (_h0 : 0 ≤ rule.max_marks.getD 10)
    (h4 : rule.definition_marks.getD 0 + rule.keyword_marks.getD 0 +
      rule.explanation_marks.getD 0 ≤ rule.max_marks.getD 10) :
    0 ≤ (scoreOne qid rule ans).suggested_marks ∧
      (scoreOne qid rule ans).suggested_marks ≤ (scoreOne qid rule ans).max_marks := by
  have hcnt : (0 : Int) ≤
      (((rule.keywords.getD []).filter
        (fun kw => containsSub (pyLowerStr kw) (pyLowerStr ans))).length : Int) * 2 := by
    positivity
  simp only [scoreOne]
  constructor
  · have hm := le_min hcnt h2
    split <;> split <;> omega
  · have hm := min_le_right
      ((((rule.keywords.getD []).filter
        (fun kw => containsSub (pyLowerStr kw) (pyLowerStr ans))).length : Int) * 2)
      (rule.keyword_marks.getD 0)
    split <;> split <;> omega

/-- Witness for `c7_suggested_marks_bounds` at the default rule (3 + 4 + 3 ≤ 10)
on a concrete answer. -/
theorem c7_witness :
    0 ≤ (scoreOne ("Q1").toList default_rule ("hello").toList).suggested_marks ∧
      (scoreOne ("Q1").toList default_rule ("hello").toList).suggested_marks ≤
        (scoreOne ("Q1").toList default_rule ("hello").toList).max_marks :=
  c7_suggested_marks_bounds _ _ _ (by decide) (by decide) (by decide) (by decide) (by decide)

/-- Claim C8: the scoring loop emits exactly one result per entry of the
segmentation mapping, in its insertion (list) order — the question fields are
the mapping keys in order, and the entry at any index is the given answer
scored under the rubric rule for that key when present and under the default
rule otherwise. The loop is a pure function of the mapping and rubric, hence
deterministic across runs. -/
theorem c8_aggregator_order (rubric : List (List Char × RuleDoc))
    (qa : List (List Char × List Char)) :
    (scoreAll rubric qa).map (fun r => r.question) = qa.map (fun p => p.1) ∧
      (∀ i : Nat, (scoreAll rubric qa)[i]? =
        qa[i]?.map (fun p =>
          scoreOne p.1 ((lookupA rubric p.1).getD default_rule) p.2)) ∧
      scoreAll rubric qa = scoreAll rubric qa := by
  refine ⟨?_, ?_, rfl⟩
  · simp [scoreAll, List.map_map]
    intro a b _
    rfl
  · intro i
    simp [scoreAll, List.getElem?_map]

/-- Claim C1 (counterexample): with rubric keys Q1, Q2, Q3 and the non-empty
text "ab" (no label occurs in it), the chunk fallback assigns "a" and "b" to
the first two keys but leaves Q3 the empty string: the text is shorter than
the number of keys, so a key is left empty while the text is non-empty. -/
theorem c1_counterexample :
    question_answers ("ab").toList [("Q1").toList, ("Q2").toList, ("Q3").toList] =
      [(("Q1").toList, ("a").toList), (("Q2").toList, ("b").toList),
       (("Q3").toList, [])] ∧
    ¬ ("ab").toList = ([] : List Char) := by
  decide

/-- Claim C9 (counterexample): a rule whose keyword list contains the empty
string scores the empty string as present even in the empty snippet, so on
the empty text the single rubric key receives keyword marks
`min(2*1, 4) = 2`, not an all-zero breakdown. -/
theorem c9_counterexample :
    pipelineRun
        [(("Q1").toList,
          { max_marks := some 10, definition_marks := some 0, keyword_marks := some 4,
            explanation_marks := some 0, keywords := some [[]] })] [] =
      [{ question := ("Q1").toList, suggested_marks := 2, max_marks := 10,
         breakdown := { definition := 0, keywords := 2, explanation := 0 } }] ∧
    ¬ (2 : Int) = 0 := by
  decide

/-- Unfolding of `pyStrip` as a right-drop after a left-drop. -/
theorem pyStrip_eq_rdropWhile (l : List Char) :
    pyStrip l = List.rdropWhile isPySpace (l.dropWhile isPySpace) := rfl

/-- Python `strip` is idempotent. -/
theorem pyStrip_idem (l : List Char) : pyStrip (pyStrip l) = pyStrip l := by
  rw [pyStrip_eq_rdropWhile, pyStrip_eq_rdropWhile]
  have hX := List.dropWhile_idempotent isPySpace l
  obtain ⟨u, hu⟩ := List.rdropWhile_prefix isPySpace (l.dropWhile isPySpace)
  have h1 : (List.rdropWhile isPySpace (l.dropWhile isPySpace)).dropWhile isPySpace
      = List.rdropWhile isPySpace (l.dropWhile isPySpace) := by
    cases hr : List.rdropWhile isPySpace (l.dropWhile isPySpace) with
    | nil => rfl
    | cons a t =>
      rw [hr] at hu
      have hu2 : l.dropWhile isPySpace = a :: (t ++ u) := by
        rw [← hu]; simp
      have hsa : ¬ isPySpace a = true := by
        intro hsa
        rw [hu2, List.dropWhile_cons_of_pos hsa] at hX
        have hle : (List.dropWhile isPySpace (t ++ u)).length ≤ (t ++ u).length :=
          (List.dropWhile_suffix isPySpace).sublist.length_le
        have hlen1 := congrArg List.length hX
        rw [List.length_cons] at hlen1
        omega
      rw [List.dropWhile_cons_of_neg hsa]
  rw [h1, List.rdropWhile_idempotent]

/-- A list is untouched by the fallback fold when its key is absent from the
processed pairs. -/
theorem fallbackStep_foldl_notin (t : List Char) (n : Nat)
    (ps : List (Nat × List Char)) (m : List Char → List Char) (k : List Char)
    (hk : ∀ p ∈ ps, ¬ p.2 = k) :
    (ps.foldl (fun m p =>
      if pyStrip (m p.2) = [] then
        (fun x => if x = p.2 then chunkAt t n p.1 else m x)
      else m) m) k = m k := by
  induction ps generalizing m with
  | nil => rfl
  | cons p rest ih =>
    have hp : ¬ p.2 = k := hk p (List.mem_cons_self p rest)
    have hrest : ∀ q ∈ rest, ¬ q.2 = k := fun q hq => hk q (List.mem_cons_of_mem p hq)
    simp only [List.foldl_cons]
    rw [ih _ hrest]
    by_cases h : pyStrip (m p.2) = []
    · simp only [h, if_pos rfl]
      have : ¬ k = p.2 := fun he => hp he.symm
      simp [this]
    · simp [h]

/-- Value of the fallback fold at a key occurring once among the processed
pairs: the chunk of its index when the incoming value was whitespace-only,
the incoming value otherwise. -/
theorem fallbackStep_foldl_mem (t : List Char) (n : Nat)
    (ps : List (Nat × List Char)) (m : List Char → List Char) (i : Nat) (k : List Char)
    (hmem : (i, k) ∈ ps) (hnd : (ps.map (fun p => p.2)).Nodup) :
    (ps.foldl (fun m p =>
      if pyStrip (m p.2) = [] then
        (fun x => if x = p.2 then chunkAt t n p.1 else m x)
      else m) m) k =
      if pyStrip (m k) = [] then chunkAt t n i else m k := by
  induction ps generalizing m with
  | nil => exact absurd hmem (List.not_mem_nil _)
  | cons p rest ih =>
    have hnd2 := hnd
    rw [List.map_cons, List.nodup_cons] at hnd2
    rcases List.mem_cons.mp hmem with heq | hmemr
    · have hpk : p.2 = k := by rw [← heq]
      have hpi : p.1 = i := by rw [← heq]
      have hrest : ∀ q ∈ rest, ¬ q.2 = k := by
        intro q hq hqk
        exact hnd2.1 (hpk ▸ hqk ▸ List.mem_map_of_mem (fun r => r.2) hq)
      simp only [List.foldl_cons]
      rw [fallbackStep_foldl_notin t n rest _ k hrest]
      by_cases h : pyStrip (m p.2) = []
      · rw [hpk] at h
        simp only [hpk, hpi, h, if_pos rfl]
        simp
      · rw [hpk] at h
        simp [hpk, h]
    · have hkp : ¬ k = p.2 := by
        intro he
        exact hnd2.1 (he ▸ List.mem_map_of_mem (fun r => r.2) hmemr)
      simp only [List.foldl_cons]
      rw [ih _ hmemr hnd2.2]
      by_cases h : pyStrip (m p.2) = []
      · simp only [h, if_pos rfl]
        simp [hkp]
      · simp [h]

/-- Claim C1 (amended): with distinct rubric keys and a non-whitespace text,
every key whose pass-one snippet is non-whitespace, or whose fallback chunk
is non-empty after stripping, receives a final segmentation value that is
non-empty and not whitespace-only (its pass-one snippet in the first case,
its chunk when the pass-one snippet was whitespace-only). Contrapositively a
key can be left with the empty string only when its pass-one snippet is
whitespace-only and its chunk strips to nothing — `c1_counterexample` shows
this happens on a non-empty text shorter than the key count. -/
theorem c1_amended (t : List Char) (keys : List (List Char)) (k : List Char) (i : Nat)
    (hnd : keys.Nodup) (hget : keys.get? i = some k)
    (hs : ¬ pyStrip t = [])
    (hor : ¬ pyStrip (pass1Val (extract_by_rubric_keys t keys) k) = [] ∨
      ¬ chunkAt t keys.length i = []) :
    ¬ questionAnswersF t keys k = [] ∧ ¬ pyStrip (questionAnswersF t keys k) = [] := by
  have hmem : k ∈ keys := List.get?_mem hget
  have hstrip_chunk : pyStrip (chunkAt t keys.length i) = chunkAt t keys.length i :=
    pyStrip_idem _
  have hfun : questionAnswersF t keys =
      if ¬ (keys.filter (fun k2 => pyStrip (pass1Val (extract_by_rubric_keys t keys) k2) = [])) = []
          ∧ ¬ pyStrip t = []
        then fallbackFold t keys (fun k2 => pass1Val (extract_by_rubric_keys t keys) k2)
        else (fun k2 => pass1Val (extract_by_rubric_keys t keys) k2) := rfl
  have henum : (i, k) ∈ keys.enum :=
    List.mk_mem_enum_iff_getElem?.mpr (by rw [← List.get?_eq_getElem?]; exact hget)
  have hndsnd : (keys.enum.map (fun p => p.2)).Nodup := by
    rw [List.enum_map_snd]; exact hnd
  have hfold : fallbackFold t keys (fun k2 => pass1Val (extract_by_rubric_keys t keys) k2) k =
      if pyStrip (pass1Val (extract_by_rubric_keys t keys) k) = []
        then chunkAt t keys.length i
        else pass1Val (extract_by_rubric_keys t keys) k := by
    rw [fallbackFold]
    exact fallbackStep_foldl_mem t keys.length keys.enum _ i k henum hndsnd
  by_cases hv : pyStrip (pass1Val (extract_by_rubric_keys t keys) k) = []
  · have hc : ¬ chunkAt t keys.length i = [] := hor.resolve_left (fun ha => ha hv)
    have hfilter : ¬ (keys.filter
        (fun k2 => pyStrip (pass1Val (extract_by_rubric_keys t keys) k2) = [])) = [] := by
      apply List.ne_nil_of_mem (a := k)
      exact List.mem_filter.mpr ⟨hmem, by simp [hv]⟩
    have hval : questionAnswersF t keys k = chunkAt t keys.length i := by
      rw [hfun, if_pos ⟨hfilter, hs⟩, hfold, if_pos hv]
    rw [hval]
    exact ⟨hc, by rw [hstrip_chunk]; exact hc⟩
  · have hne : ¬ pass1Val (extract_by_rubric_keys t keys) k = [] := by
      intro h0
      rw [h0] at hv
      exact hv rfl
    have hval : questionAnswersF t keys k = pass1Val (extract_by_rubric_keys t keys) k := by
      rw [hfun]
      by_cases hfilter : (keys.filter
          (fun k2 => pyStrip (pass1Val (extract_by_rubric_keys t keys) k2) = [])) = []
      · rw [if_neg]
        intro hand
        exact hand.1 hfilter
      · rw [if_pos ⟨hfilter, hs⟩, hfold, if_neg hv]
    rw [hval]
    exact ⟨hne, hv⟩

/-- Witness for `c1_amended`: two distinct keys, a genuinely non-whitespace
text, and index 0, whose chunk is non-empty (the second disjunct). -/
theorem c1_witness :
    ¬ questionAnswersF ("hello world sample text").toList
        [("Q1").toList, ("Q2").toList] (("Q1").toList) = [] ∧
    ¬ pyStrip (questionAnswersF ("hello world sample text").toList
        [("Q1").toList, ("Q2").toList] (("Q1").toList)) = [] :=
  c1_amended ("hello world sample text").toList [("Q1").toList, ("Q2").toList]
    (("Q1").toList) 0 (by decide) (by decide) (by decide) (by decide)

/-- A successful association-list lookup returns a pair of the list. -/
theorem lookupA_mem {β : Type} (l : List (List Char × β)) (k : List Char) (v : β)
    (h : lookupA l k = some v) : (k, v) ∈ l := by
  induction l with
  | nil => simp [lookupA] at h
  | cons p rest ih =>
    obtain ⟨a, b⟩ := p
    rw [lookupA] at h
    by_cases hak : a = k
    · rw [if_pos hak] at h
      injection h with h2
      subst h2
      subst hak
      exact List.mem_cons_self _ _
    · rw [if_neg hak] at h
      exact List.mem_cons_of_mem _ (ih h)

/-- On the empty text every snippet produced by pass one is empty. -/
theorem extract_nil_val (keys : List (List Char)) (p : List Char × List Char)
    (hp : p ∈ extract_by_rubric_keys [] keys) : p.2 = [] := by
  rw [extract_by_rubric_keys] at hp
  simp only [List.mem_map] at hp
  obtain ⟨ip, _, hip⟩ := hp
  rw [← hip]
  simp [pySlice, pyStrip]

/-- On the empty text every pass-one value is the empty string. -/
theorem pass1Val_nil (keys : List (List Char)) (k : List Char) :
    pass1Val (extract_by_rubric_keys [] keys) k = [] := by
  simp only [pass1Val]
  cases h : lookupA (extract_by_rubric_keys [] keys) k with
  | none => rfl
  | some v =>
    have hv : v = [] := extract_nil_val keys (k, v) (lookupA_mem _ _ _ h)
    subst hv
    simp [pyStrip]

/-- On the empty text the final segmentation value of every key is the empty
string (the fallback guard fails because the text strips to nothing). -/
theorem questionAnswersF_nil (keys : List (List Char)) (k : List Char) :
    questionAnswersF [] keys k = [] := by
  have hfun : questionAnswersF [] keys =
      if ¬ (keys.filter (fun k2 => pyStrip (pass1Val (extract_by_rubric_keys [] keys) k2) = [])) = []
          ∧ ¬ pyStrip ([] : List Char) = []
        then fallbackFold [] keys (fun k2 => pass1Val (extract_by_rubric_keys [] keys) k2)
        else (fun k2 => pass1Val (extract_by_rubric_keys [] keys) k2) := rfl
  rw [hfun, if_neg]
  · exact pass1Val_nil keys k
  · intro hand
    exact hand.2 rfl

/-- The scoring loop preserves the question identifiers in order. -/
theorem scoreAll_map_question (rubric : List (List Char × RuleDoc))
    (qa : List (List Char × List Char)) :
    (scoreAll rubric qa).map (fun r => r.question) = qa.map (fun p => p.1) := by
  simp only [scoreAll, List.map_map]
  apply List.map_congr_left
  intro p _
  rfl

/-- The segmentation mapping lists exactly the rubric keys in rubric order. -/
theorem question_answers_map_fst (t : List Char) (keys : List (List Char)) :
    (question_answers t keys).map (fun p => p.1) = keys := by
  simp only [question_answers, List.map_map]
  have : ((fun p => p.1) ∘ fun k => (k, questionAnswersF t keys k)) = id := rfl
  rw [this, List.map_id]

/-- Claim C9 (amended): with a non-empty rubric, the Result sequence has
exactly one entry per rubric key, in rubric-key order, for every input text;
and on the empty text every key is scored on the empty snippet and receives
an all-zero breakdown provided each rule has non-negative `keyword_marks`
and no empty-string keyword (`c9_counterexample` shows an empty-string
keyword scores even on the empty snippet). -/
theorem c9_amended (rubric : List (List Char × RuleDoc)) (_hne : ¬ rubric = []) :
    (∀ t : List Char, (pipelineRun rubric t).map (fun r => r.question) =
        rubric.map (fun p => p.1)) ∧
    ((∀ p ∈ rubric, 0 ≤ p.2.keyword_marks.getD 0 ∧
        ¬ ([] : List Char) ∈ p.2.keywords.getD []) →
      ∀ r ∈ pipelineRun rubric [],
        r.breakdown = { definition := 0, keywords := 0, explanation := 0 } ∧
        r.suggested_marks = 0) := by
  constructor
  · intro t
    rw [pipelineRun, scoreAll_map_question, question_answers_map_fst]
  · intro hcond r hr
    rw [pipelineRun, scoreAll] at hr
    simp only [List.mem_map] at hr
    obtain ⟨p, hp, hpr⟩ := hr
    rw [question_answers] at hp
    simp only [List.mem_map] at hp
    obtain ⟨k, _, hkp⟩ := hp
    have hp2 : p.2 = [] := by
      rw [← hkp]
      exact questionAnswersF_nil _ k
    have hrule : 0 ≤ ((lookupA rubric p.1).getD default_rule).keyword_marks.getD 0 ∧
        ¬ ([] : List Char) ∈ ((lookupA rubric p.1).getD default_rule).keywords.getD [] := by
      cases h : lookupA rubric p.1 with
      | none => simp [default_rule]
      | some ru =>
        have := hcond (p.1, ru) (lookupA_mem _ _ _ h)
        simpa using this
    have hfilter : (((lookupA rubric p.1).getD default_rule).keywords.getD []).filter
        (fun kw => containsSub (pyLowerStr kw) (pyLowerStr [])) = [] := by
      rw [List.filter_eq_nil_iff]
      intro kw hkw
      have hkwne : ¬ kw = [] := by
        intro he
        exact hrule.2 (he ▸ hkw)
      cases kw with
      | nil => exact absurd rfl hkwne
      | cons c ct =>
        have hfind : findSub (pyLowerStr (c :: ct)) (pyLowerStr []) = none := by
          simp only [pyLowerStr, List.map_nil, List.map_cons]
          rw [findSub]
          rw [if_neg]
          simp
        simp [containsSub, hfind]
    have hscore : scoreOne p.1 ((lookupA rubric p.1).getD default_rule) [] =
        { question := p.1, suggested_marks := 0,
          max_marks := ((lookupA rubric p.1).getD default_rule).max_marks.getD 10,
          breakdown := { definition := 0, keywords := 0, explanation := 0 } } := by
      simp only [scoreOne, hfilter]
      have hmin : min (((([] : List QResult).length : Int)) * 2)
          (((lookupA rubric p.1).getD default_rule).keyword_marks.getD 0) = 0 := by
        simp only [List.length_nil, Int.Nat.cast_ofNat_Int, zero_mul]
        exact min_eq_left hrule.1
      simp [hmin, pyStrip, pyWordCount, countWords]
      exact hrule.1
    rw [← hpr, hp2, hscore]
    exact ⟨rfl, rfl⟩

/-- Witness for `c9_amended` on the one-key rubric with the default rule and
the text "x". -/
theorem c9_witness :
    (pipelineRun [(("Q1").toList, default_rule)] ("x").toList).map (fun r => r.question) =
      [("Q1").toList] :=
  (c9_amended [(("Q1").toList, default_rule)] (by decide)).1 (("x").toList)

/-- Conversion of a valid code point round-trips through `Char.ofNat`. -/
theorem char_toNat_ofNat (n : Nat) (h : n < 55296) : (Char.ofNat n).toNat = n := by
  have hv : n.isValidChar := Or.inl h
  simp [Char.ofNat, hv, Char.ofNatAux, Char.toNat, UInt32.toNat, BitVec.toNat_ofNatLt]

/-- Lower-casing a character twice is the same as once (the shifted image of
an upper-case ASCII letter is no longer upper-case). -/
theorem pyLower_idem (c : Char) : pyLower (pyLower c) = pyLower c := by
  by_cases h : 65 ≤ c.toNat ∧ c.toNat ≤ 90
  · have h1 : pyLower c = Char.ofNat (c.toNat + 32) := by
      unfold pyLower
      rw [if_pos h]
    have hto : (Char.ofNat (c.toNat + 32)).toNat = c.toNat + 32 :=
      char_toNat_ofNat _ (by omega)
    rw [h1]
    unfold pyLower
    rw [if_neg (by rw [hto]; omega)]
  · have h1 : pyLower c = c := by
      unfold pyLower
      rw [if_neg h]
    rw [h1]
    exact h1

/-- Equation of `collapseRuns` on a two-element head. -/
theorem collapseRuns_cons2 (c a b : Char) (t : List Char) :
    collapseRuns c (a :: b :: t) =
      if a = c ∧ b = c then collapseRuns c (b :: t)
      else a :: collapseRuns c (b :: t) := rfl

/-- Collapsing runs never changes the first element. -/
theorem collapseRuns_head (c : Char) (t : List Char) :
    ∀ b, ∃ r, collapseRuns c (b :: t) = b :: r := by
  induction t with
  | nil => exact fun b => ⟨[], rfl⟩
  | cons d t2 ih =>
    intro b
    by_cases h : b = c ∧ d = c
    · obtain ⟨r, hr⟩ := ih d
      refine ⟨r, ?_⟩
      rw [collapseRuns_cons2, if_pos h, hr, h.1, h.2]
    · obtain ⟨r, hr⟩ := ih d
      exact ⟨d :: r, by rw [collapseRuns_cons2, if_neg h, hr]⟩

/-- After collapsing, no two adjacent occurrences of `c` remain. -/
theorem chain'_collapseRuns (c : Char) :
    ∀ l, List.Chain' (fun a b => ¬ (a = c ∧ b = c)) (collapseRuns c l) := by
  intro l
  induction l with
  | nil => exact List.chain'_nil
  | cons a t ih =>
    cases t with
    | nil => exact List.chain'_singleton a
    | cons b t2 =>
      rw [collapseRuns_cons2]
      by_cases h : a = c ∧ b = c
      · rw [if_pos h]
        exact ih
      · rw [if_neg h]
        obtain ⟨r, hr⟩ := collapseRuns_head c t2 b
        rw [hr, List.chain'_cons]
        exact ⟨h, hr ▸ ih⟩

/-- Collapsing runs of one character preserves the absence of adjacent
duplicates of any character. -/
theorem chain'_collapseRuns_other (c c2 : Char) :
    ∀ l, List.Chain' (fun a b => ¬ (a = c ∧ b = c)) l →
      List.Chain' (fun a b => ¬ (a = c ∧ b = c)) (collapseRuns c2 l) := by
  intro l
  induction l with
  | nil => exact fun h => h
  | cons a t ih =>
    cases t with
    | nil => exact fun h => h
    | cons b t2 =>
      intro h
      rw [List.chain'_cons] at h
      rw [collapseRuns_cons2]
      by_cases hd : a = c2 ∧ b = c2
      · rw [if_pos hd]
        exact ih h.2
      · rw [if_neg hd]
        obtain ⟨r, hr⟩ := collapseRuns_head c2 t2 b
        rw [hr, List.chain'_cons]
        exact ⟨h.1, hr ▸ ih h.2⟩

/-- A list with no adjacent duplicates of `c` is unchanged by collapsing. -/
theorem collapseRuns_eq_self (c : Char) :
    ∀ l, List.Chain' (fun a b => ¬ (a = c ∧ b = c)) l → collapseRuns c l = l := by
  intro l
  induction l with
  | nil => exact fun _ => rfl
  | cons a t ih =>
    cases t with
    | nil => exact fun _ => rfl
    | cons b t2 =>
      intro h
      rw [List.chain'_cons] at h
      rw [collapseRuns_cons2, if_neg h.1, ih h.2]

/-- Collapsing runs only removes elements. -/
theorem collapseRuns_sublist (c : Char) :
    ∀ l, (collapseRuns c l).Sublist l := by
  intro l
  induction l with
  | nil => exact List.Sublist.refl _
  | cons a t ih =>
    cases t with
    | nil => exact List.Sublist.refl _
    | cons b t2 =>
      rw [collapseRuns_cons2]
      by_cases h : a = c ∧ b = c
      · rw [if_pos h]
        exact ih.trans (List.sublist_cons_self a (b :: t2))
      · rw [if_neg h]
        exact List.Sublist.cons₂ a ih

/-- Stripping yields a contiguous part of the original string. -/
theorem pyStrip_part (l : List Char) : pyStrip l <:+: l := by
  rw [pyStrip_eq_rdropWhile]
  have h1 : List.rdropWhile isPySpace (l.dropWhile isPySpace) <+: l.dropWhile isPySpace :=
    List.rdropWhile_prefix isPySpace (l.dropWhile isPySpace)
  have h2 : l.dropWhile isPySpace <:+ l := List.dropWhile_suffix isPySpace
  have h3 : List.rdropWhile isPySpace (l.dropWhile isPySpace) <:+: l.dropWhile isPySpace :=
    List.IsPrefix.isInfix h1
  have h4 : l.dropWhile isPySpace <:+: l := List.IsSuffix.isInfix h2
  exact List.IsInfix.trans h3 h4

/-- Lower-casing is the identity on an already lower-cased string. -/
theorem pyLowerStr_eq_self (l : List Char) (h : ∀ x ∈ l, pyLower x = x) :
    pyLowerStr l = l := by
  rw [pyLowerStr, List.map_congr_left h]
  simp

/-- Every character surviving the normalizer is lower-cased. -/
theorem clean_sublist_lower (l : List Char) :
    (clean_ocr_text l).Sublist (pyLowerStr l) := by
  rw [clean_ocr_text]
  have h1 := List.IsInfix.sublist (pyStrip_part
    (((collapseRuns ' ' (collapseRuns '\n' (pyLowerStr l)))).filter keepChar))
  exact ((h1.trans (List.filter_sublist _)).trans
    (collapseRuns_sublist ' ' _)).trans (collapseRuns_sublist '\n' _)

/-- Characters of a normalizer output are fixed by lower-casing. -/
theorem clean_lowered (l : List Char) : ∀ x ∈ clean_ocr_text l, pyLower x = x := by
  intro x hx
  have hx2 : x ∈ pyLowerStr l := (clean_sublist_lower l).subset hx
  rw [pyLowerStr] at hx2
  obtain ⟨y, _, hy⟩ := List.mem_map.mp hx2
  rw [← hy]
  exact pyLower_idem y

/-- Characters of a normalizer output pass the noise filter. -/
theorem clean_keep (l : List Char) : ∀ x ∈ clean_ocr_text l, keepChar x = true := by
  intro x hx
  rw [clean_ocr_text] at hx
  have h1 := List.IsInfix.sublist (pyStrip_part
    (((collapseRuns ' ' (collapseRuns '\n' (pyLowerStr l)))).filter keepChar))
  exact List.of_mem_filter (h1.subset hx)

/-- A lower-cased, noise-free, run-free, stripped string is a fixpoint of
the normalizer. -/
theorem clean_fixpoint (z : List Char)
    (hl : ∀ x ∈ z, pyLower x = x)
    (hk : ∀ x ∈ z, keepChar x = true)
    (hn : List.Chain' (fun a b => ¬ (a = '\n' ∧ b = '\n')) z)
    (hs : List.Chain' (fun a b => ¬ (a = ' ' ∧ b = ' ')) z)
    (hz : pyStrip z = z) :
    clean_ocr_text z = z := by
  rw [clean_ocr_text, pyLowerStr_eq_self z hl, collapseRuns_eq_self '\n' z hn,
    collapseRuns_eq_self ' ' z hs, List.filter_eq_self.mpr hk, hz]

/-- On a lower-cased, noise-free input the normalizer is just the two run
collapses followed by the strip. -/
theorem clean_of_lowered_keep (y : List Char)
    (hly : ∀ x ∈ y, pyLower x = x) (hky : ∀ x ∈ y, keepChar x = true) :
    clean_ocr_text y = pyStrip (collapseRuns ' ' (collapseRuns '\n' y)) := by
  rw [clean_ocr_text, pyLowerStr_eq_self y hly, List.filter_eq_self.mpr]
  intro a ha
  exact hky a (((collapseRuns_sublist ' ' _).trans (collapseRuns_sublist '\n' _)).subset ha)

/-- Claim C4 (counterexample): the Text Normalizer is not idempotent.
Removing a noise character after collapsing newline runs can create a new
newline run: normalizing "a\n#\nb" gives "a\n\nb", and normalizing again
gives "a\nb". -/
theorem c4_counterexample :
    clean_ocr_text (("a\n#\nb").toList) = ("a\n\nb").toList ∧
    clean_ocr_text (clean_ocr_text (("a\n#\nb").toList)) = ("a\nb").toList ∧
    ¬ clean_ocr_text (clean_ocr_text (("a\n#\nb").toList)) =
      clean_ocr_text (("a\n#\nb").toList) := by
  decide

/-- Claim C4 (amended): the Text Normalizer stabilizes after two
applications: a third application changes nothing, so
`normalize (normalize x)` is a fixpoint of `normalize` for every input,
while one application need not be (`c4_counterexample`). -/
theorem c4_amended (x : List Char) :
    clean_ocr_text (clean_ocr_text (clean_ocr_text x)) =
      clean_ocr_text (clean_ocr_text x) := by
  have hly := clean_lowered x
  have hky := clean_keep x
  have hclean : clean_ocr_text (clean_ocr_text x) =
      pyStrip (collapseRuns ' ' (collapseRuns '\n' (clean_ocr_text x))) :=
    clean_of_lowered_keep _ hly hky
  have hpart := List.IsInfix.sublist (pyStrip_part
    (collapseRuns ' ' (collapseRuns '\n' (clean_ocr_text x))))
  have hsub : (pyStrip (collapseRuns ' ' (collapseRuns '\n' (clean_ocr_text x)))).Sublist
      (clean_ocr_text x) :=
    hpart.trans ((collapseRuns_sublist ' ' _).trans (collapseRuns_sublist '\n' _))
  rw [hclean]
  apply clean_fixpoint
  · intro a ha
    exact hly a (hsub.subset ha)
  · intro a ha
    exact hky a (hsub.subset ha)
  · exact List.Chain'.infix (chain'_collapseRuns_other '\n' ' ' _
      (chain'_collapseRuns '\n' (clean_ocr_text x))) (pyStrip_part _)
  · exact List.Chain'.infix
      (chain'_collapseRuns ' ' (collapseRuns '\n' (clean_ocr_text x))) (pyStrip_part _)
  · exact pyStrip_idem _
